import Mathlib

/-!
Shallow embedding of the todo-start persistence layer (`models.py`,
`persistence.py`, and the create endpoint of `main.py`): a JSON-file-backed
data-access object for todo records.

The in-memory `dict[int, Todo]` is modelled as an insertion-ordered
association list with Python `dict` semantics (`dictInsert` replaces in
place when the key is present, else appends; `dictRemove` deletes the keyed
entry).  The backing file is modelled as a `FileState`: absent, not valid
JSON, or a JSON array of record objects (`RecordData`, whose fields are
optional to model missing keys, and whose `text` may be a non-string JSON
value).  The `threading.Lock` and the concrete file path are not modelled:
every operation here is sequential, and the file the store owns is carried
in its state.
-/

namespace TodoApp

/-- A JSON value appearing in the `text` field of a record: either a JSON
string or some non-string JSON value. -/
inductive FieldVal where
  | str (s : String)
  | notStr
  deriving DecidableEq, Repr

/-- `models.MIN_TEXT_LENGTH`. -/
def MIN_TEXT_LENGTH : Nat := 2

/-- Python `str.strip()`: removes leading and trailing whitespace,
modelled over the character sequence of the string. -/
def strip (s : String) : String :=
  ⟨((s.data.dropWhile Char.isWhitespace).reverse.dropWhile Char.isWhitespace).reverse⟩

/-- `models.TodoCreate.validate_text`: a non-string `text` is rejected
(`TypeError`), a string is stripped of surrounding whitespace and must then
have length at least `MIN_TEXT_LENGTH`; the stripped text is returned on
success, `none` models the raised validation error. -/
def validate_text (v : FieldVal) : Option String :=
  match v with
  | .notStr => none
  | .str v =>
    let v := strip v
    if v.length < MIN_TEXT_LENGTH then none else some v

/-- `models.TodoCreate` after pydantic validation: a validated creation
request, its `text` already stripped. -/
structure TodoCreate where
  text : String
  done : Bool
  deriving DecidableEq, Repr

/-- `models.Todo`: a todo record with an id. -/
structure Todo where
  id : Int
  text : String
  done : Bool
  deriving DecidableEq, Repr

/-- Pydantic construction of a `TodoCreate` from a request body: validates
the `text` field (`done` defaults to `false` at the call sites). -/
def TodoCreate.model_validate (text : FieldVal) (done : Bool) : Option TodoCreate :=
  (validate_text text).map (fun t => ⟨t, done⟩)

/-- A decoded JSON object from the backing file, as far as the store reads
it: each field may be absent, and `text` may be a non-string. -/
structure RecordData where
  id : Option Int
  text : Option FieldVal
  done : Option Bool
  deriving DecidableEq, Repr

/-- `Todo.model_validate` (pydantic): requires an `id` and a string `text`
passing `validate_text`; `done` defaults to `false`. -/
def Todo.model_validate (r : RecordData) : Option Todo :=
  match r.id, r.text with
  | some i, some v => (validate_text v).map (fun t => ⟨i, t, r.done.getD false⟩)
  | _, _ => none

/-- `Todo.model_dump`: the JSON object written to the file for a record. -/
def Todo.model_dump (t : Todo) : RecordData :=
  { id := some t.id, text := some (.str t.text), done := some t.done }

/-- Python `d[k] = v` on an insertion-ordered association list: replaces
the value in place when the key is present, else appends. -/
def dictInsert (k : Int) (v : Todo) : List (Int × Todo) → List (Int × Todo)
  | [] => [(k, v)]
  | p :: rest => if p.1 = k then (k, v) :: rest else p :: dictInsert k v rest

/-- Python `d.get(k)`. -/
def dictGet (k : Int) : List (Int × Todo) → Option Todo
  | [] => none
  | p :: rest => if p.1 = k then some p.2 else dictGet k rest

/-- Python `del d[k]`. -/
def dictRemove (k : Int) : List (Int × Todo) → List (Int × Todo)
  | [] => []
  | p :: rest => if p.1 = k then rest else p :: dictRemove k rest

/-- The content of the backing JSON file. -/
inductive FileState where
  | missing
  | invalid
  | array (records : List RecordData)
  deriving DecidableEq, Repr

/-- The spec's error taxonomy for the store (`InvalidInput` is a pydantic
`ValidationError` at the boundary, `NotFound` the `ValueError` raised by
`update`/`delete`, `MalformedStoreFile` any failure while decoding the
backing file at startup). -/
inductive DaoError where
  | invalidInput
  | notFound
  | malformedStoreFile
  deriving DecidableEq, Repr

/-- The state of `persistence.TodoDao` together with the backing file it
owns: `todos` is the in-memory mapping, `file` the current content of the
JSON file at `self.filename`. -/
structure TodoDao where
  todos : List (Int × Todo)
  file : FileState
  deriving DecidableEq, Repr

/-- `TodoDao._write_all`: rewrites the whole backing file with the given
records, serialized via `model_dump` as a JSON array. -/
def TodoDao._write_all (s : TodoDao) (todos : List Todo) : TodoDao :=
  { s with file := .array (todos.map Todo.model_dump) }

/-- The loop body of `TodoDao._read_all`: `todo_data["id"]` raises on a
missing id (`KeyError`), `Todo.model_validate` raises on a validation
failure; both surface as the `MalformedStoreFile` condition. -/
def TodoDao.readLoop : List RecordData → List (Int × Todo) → Except DaoError (List (Int × Todo))
  | [], todos => .ok todos
  | r :: rs, todos =>
    match r.id with
    | none => .error .malformedStoreFile
    | some todo_id =>
      match Todo.model_validate r with
      | none => .error .malformedStoreFile
      | some t => TodoDao.readLoop rs (dictInsert todo_id t todos)

/-- `TodoDao._read_all`: a missing file yields the empty mapping and logs a
warning (the boolean); a file that is not valid JSON, or a bad record,
fails. -/
def TodoDao._read_all : FileState → Except DaoError (List (Int × Todo) × Bool)
  | .missing => .ok ([], true)
  | .invalid => .error .malformedStoreFile
  | .array rs => (TodoDao.readLoop rs []).map (fun m => (m, false))

/-- `TodoDao.__init__`: builds the store by reading the backing file; the
boolean reports whether the missing-file warning was logged. -/
def TodoDao.init (f : FileState) : Except DaoError (TodoDao × Bool) :=
  (TodoDao._read_all f).map (fun p => ({ todos := p.1, file := f }, p.2))

/-- Python `max` on a list of integers (the source only applies it to a
nonempty one). -/
def listMax : List Int → Int
  | [] => 0
  | x :: xs => xs.foldl max x

/-- `TodoDao._next_id`: `1` on an empty mapping, else one more than the
maximum key currently present. -/
def TodoDao._next_id (s : TodoDao) : Int :=
  if s.todos.isEmpty then 1 else listMax (s.todos.map Prod.fst) + 1

/-- `TodoDao.get`. -/
def TodoDao.get (s : TodoDao) (todo_id : Int) : Option Todo :=
  dictGet todo_id s.todos

/-- `TodoDao.get_all`. -/
def TodoDao.get_all (s : TodoDao) : List Todo :=
  s.todos.map Prod.snd

/-- `TodoDao.save`: assigns `_next_id`, stores the record, rewrites the
file with every value of the mapping, returns the created record. -/
def TodoDao.save (s : TodoDao) (todo_create : TodoCreate) : TodoDao × Todo :=
  let todo_id := s._next_id
  let todo : Todo := { id := todo_id, text := todo_create.text, done := todo_create.done }
  let todos := dictInsert todo_id todo s.todos
  (TodoDao._write_all { s with todos := todos } (todos.map Prod.snd), todo)

/-- `TodoDao.update`: raises `NotFound` when the id is absent (before any
mutation), else replaces the record and rewrites the file. -/
def TodoDao.update (s : TodoDao) (todo : Todo) : Except DaoError (TodoDao × Todo) :=
  if (dictGet todo.id s.todos).isSome then
    let todos := dictInsert todo.id todo s.todos
    .ok (TodoDao._write_all { s with todos := todos } (todos.map Prod.snd), todo)
  else .error .notFound

/-- `TodoDao.delete`: raises `NotFound` when the id is absent (before any
mutation), else removes the record and rewrites the file. -/
def TodoDao.delete (s : TodoDao) (todo_id : Int) : Except DaoError TodoDao :=
  if (dictGet todo_id s.todos).isSome then
    let todos := dictRemove todo_id s.todos
    .ok (TodoDao._write_all { s with todos := todos } (todos.map Prod.snd))
  else .error .notFound

/-- `main.create_todo`: pydantic validates the request body into a
`TodoCreate` (a 422 `InvalidInput` on failure), then `dao.save` stores
it. -/
def TodoDao.create_todo (s : TodoDao) (text : FieldVal) (done : Bool) :
    Except DaoError (TodoDao × Todo) :=
  match TodoCreate.model_validate text done with
  | none => .error .invalidInput
  | some tc => .ok (s.save tc)

/-- One call against the store: the three mutating operations. -/
inductive Op where
  | save (tc : TodoCreate)
  | update (t : Todo)
  | delete (i : Int)
  deriving DecidableEq, Repr

/-- The state transition of one call, or its error. -/
def TodoDao.applyOp (s : TodoDao) : Op → Except DaoError TodoDao
  | .save tc => .ok (s.save tc).1
  | .update t => (s.update t).map Prod.fst
  | .delete i => s.delete i

/-- A failed call raises before any mutation, so it leaves the state
unchanged. -/
def TodoDao.stepOp (s : TodoDao) (op : Op) : TodoDao :=
  match s.applyOp op with
  | .ok s' => s'
  | .error _ => s

/-- Runs a sequence of calls, collecting the id assigned by each save. -/
def TodoDao.runOps : TodoDao → List Int → List Op → TodoDao × List Int
  | s, ids, [] => (s, ids)
  | s, ids, Op.save tc :: ops =>
    TodoDao.runOps (s.save tc).1 (ids ++ [((s.save tc).2).id]) ops
  | s, ids, Op.update t :: ops => TodoDao.runOps (s.stepOp (.update t)) ids ops
  | s, ids, Op.delete i :: ops => TodoDao.runOps (s.stepOp (.delete i)) ids ops

/-- Discriminates the operations named by the spec's id-reuse property
(sequences of save and delete calls). -/
def Op.isSaveOrDelete : Op → Bool
  | .update _ => false
  | _ => true

/-- The store freshly built from an absent file. -/
def emptyDao : TodoDao :=
  { todos := [], file := .missing }

/-- A one-record store, used to instantiate hypotheses at concrete
inputs. -/
def sampleDao : TodoDao :=
  { todos := [(1, ⟨1, "ab", false⟩)], file := .missing }

/-- A backing file holding two otherwise-valid records with the same id. -/
def dupRecords : List RecordData :=
  [⟨some 1, some (.str "ab"), some false⟩, ⟨some 1, some (.str "cd"), none⟩]

/-- The ids `k+1, k+2, ..., k+n` as integers. -/
def idsFrom : Nat → Nat → List Int
  | _, 0 => []
  | k, n + 1 => ((k : Int) + 1) :: idsFrom (k + 1) n

example : (TodoDao.runOps emptyDao []
    [Op.save ⟨"ab", false⟩, Op.delete 1, Op.save ⟨"cd", false⟩]).2 = [1, 1] := by
  decide

example : validate_text (.str "  ab  ") = some "ab" := by decide

example : (emptyDao.save ⟨"ab", false⟩).2 = ⟨1, "ab", false⟩ := by decide

/-! ### Association-list lemmas -/

theorem dictGet_insert (k i : Int) (v : Todo) (m : List (Int × Todo)) :
    dictGet i (dictInsert k v m) = if k = i then some v else dictGet i m := by
  induction m with
  | nil => by_cases h : k = i <;> simp [dictInsert, dictGet, h]
  | cons p rest ih =>
    by_cases hp : p.1 = k
    · by_cases h : k = i
      · simp [dictInsert, dictGet, hp, h]
      · have hpi : ¬ p.1 = i := by rw [hp]; exact h
        simp [dictInsert, dictGet, hp, h, hpi]
    · by_cases h : p.1 = i
      · have hki : ¬ k = i := fun he => hp (by rw [h, he])
        have hik : ¬ i = k := fun he => hki he.symm
        simp [dictInsert, dictGet, hp, h, hki, hik]
      · simp [dictInsert, dictGet, hp, h, ih]

theorem dictGet_eq_none_of_fresh (k : Int) (m : List (Int × Todo))
    (h : ∀ p ∈ m, p.1 ≠ k) : dictGet k m = none := by
  induction m with
  | nil => rfl
  | cons p rest ih =>
    have hp := h p (by simp)
    simp only [dictGet, if_neg hp]
    exact ih fun q hq => h q (by simp [hq])

theorem dictInsert_of_fresh (k : Int) (v : Todo) (m : List (Int × Todo))
    (h : ∀ p ∈ m, p.1 ≠ k) : dictInsert k v m = m ++ [(k, v)] := by
  induction m with
  | nil => rfl
  | cons p rest ih =>
    have hp := h p (by simp)
    simp only [dictInsert, if_neg hp, List.cons_append, List.cons.injEq, true_and]
    exact ih fun q hq => h q (by simp [hq])

theorem dictGet_remove_ne (i j : Int) (m : List (Int × Todo)) (h : j ≠ i) :
    dictGet j (dictRemove i m) = dictGet j m := by
  induction m with
  | nil => rfl
  | cons p rest ih =>
    by_cases hp : p.1 = i
    · have hpj : ¬ p.1 = j := by rw [hp]; exact fun he => h he.symm
      have hij : ¬ i = j := fun he => h he.symm
      simp [dictRemove, dictGet, hp, hpj, hij]
    · by_cases hj : p.1 = j
      · simp [dictRemove, dictGet, hp, hj, h]
      · simp [dictRemove, dictGet, hp, hj, ih]

theorem dictGet_remove_self (i : Int) (m : List (Int × Todo))
    (h : (m.map Prod.fst).Nodup) : dictGet i (dictRemove i m) = none := by
  induction m with
  | nil => rfl
  | cons p rest ih =>
    simp only [List.map_cons, List.nodup_cons, List.mem_map] at h
    by_cases hp : p.1 = i
    · simp only [dictRemove, if_pos hp]
      apply dictGet_eq_none_of_fresh
      intro q hq he
      exact h.1 ⟨q, hq, by rw [he, hp]⟩
    · simp only [dictRemove, if_neg hp, dictGet, if_neg hp]
      exact ih h.2

theorem dictRemove_length (i : Int) (t : Todo) (m : List (Int × Todo))
    (h : dictGet i m = some t) : (dictRemove i m).length + 1 = m.length := by
  induction m with
  | nil => simp [dictGet] at h
  | cons p rest ih =>
    by_cases hp : p.1 = i
    · simp [dictRemove, hp]
    · simp only [dictGet, if_neg hp] at h
      simp [dictRemove, hp, ih h]

/-! ### `max` lemmas for `_next_id` -/

theorem le_foldl_max (l : List Int) (a : Int) : a ≤ l.foldl max a := by
  induction l generalizing a with
  | nil => exact le_refl a
  | cons x l ih => exact le_trans (le_max_left a x) (ih (max a x))

theorem mem_le_foldl_max : ∀ (l : List Int) (a x : Int), x ∈ l → x ≤ l.foldl max a := by
  intro l
  induction l with
  | nil => intro a x h; cases h
  | cons y l ih =>
    intro a x h
    simp only [List.foldl]
    rcases List.mem_cons.mp h with rfl | h'
    · exact le_trans (le_max_right a x) (le_foldl_max l (max a x))
    · exact ih (max a y) x h'

theorem le_listMax (l : List Int) (x : Int) (h : x ∈ l) : x ≤ listMax l := by
  cases l with
  | nil => cases h
  | cons a l =>
    rcases List.mem_cons.mp h with rfl | h'
    · exact le_foldl_max l x
    · exact mem_le_foldl_max l a x h'

theorem foldl_max_mem (l : List Int) (a : Int) : l.foldl max a = a ∨ l.foldl max a ∈ l := by
  induction l generalizing a with
  | nil => left; rfl
  | cons x l ih =>
    simp only [List.foldl]
    rcases ih (max a x) with h | h
    · rcases max_choice a x with h' | h'
      · left; rw [h, h']
      · right; rw [h, h']; simp
    · right; simp [h]

theorem listMax_mem (l : List Int) (h : l ≠ []) : listMax l ∈ l := by
  cases l with
  | nil => exact absurd rfl h
  | cons a l =>
    rcases foldl_max_mem l a with h' | h'
    · simp [listMax, h']
    · simp [listMax, h']

theorem next_id_of_ne_nil (s : TodoDao) (h : s.todos ≠ []) :
    s._next_id = listMax (s.todos.map Prod.fst) + 1 := by
  obtain ⟨p, rest, heq⟩ := List.exists_cons_of_ne_nil h
  simp [TodoDao._next_id, heq]

theorem save_id_gt_keys (s : TodoDao) (tc : TodoCreate) (k : Int)
    (h : k ∈ s.todos.map Prod.fst) : k < ((s.save tc).2).id := by
  have hne : s.todos ≠ [] := by
    intro he; rw [he] at h; cases h
  have hid : ((s.save tc).2).id = s._next_id := rfl
  rw [hid, next_id_of_ne_nil s hne]
  have := le_listMax _ k h
  omega

theorem next_id_fresh (s : TodoDao) : ∀ p ∈ s.todos, p.1 ≠ s._next_id := by
  intro p hp he
  by_cases hne : s.todos = []
  · rw [hne] at hp; cases hp
  · have hk : p.1 ∈ s.todos.map Prod.fst := List.mem_map_of_mem _ hp
    have := le_listMax _ p.1 hk
    rw [next_id_of_ne_nil s hne] at he
    omega

/-! ### Consecutive-id lemmas -/

theorem mem_idsFrom (n : Nat) : ∀ (k : Nat) (i : Int),
    i ∈ idsFrom k n ↔ (k : Int) + 1 ≤ i ∧ i ≤ (k : Int) + (n : Int) := by
  induction n with
  | zero => intro k i; simp [idsFrom]; omega
  | succ n ih =>
    intro k i
    simp only [idsFrom, List.mem_cons, ih]
    push_cast
    omega

theorem idsFrom_append (n : Nat) : ∀ k : Nat,
    idsFrom k n ++ [((k + n : Nat) : Int) + 1] = idsFrom k (n + 1) := by
  induction n with
  | zero => intro k; simp [idsFrom]
  | succ n ih =>
    intro k
    simp only [idsFrom, List.cons_append, List.cons.injEq, true_and]
    have harith : (k + (n + 1) : Nat) = ((k + 1) + n : Nat) := by omega
    rw [harith, ih]
    simp [idsFrom]

theorem listMax_idsFrom (k : Nat) : listMax (idsFrom 0 (k + 1)) = (k : Int) + 1 := by
  have hne : idsFrom 0 (k + 1) ≠ [] := by simp [idsFrom]
  have hmem := (mem_idsFrom (k + 1) 0 _).mp (listMax_mem _ hne)
  have hub : (k : Int) + 1 ≤ listMax (idsFrom 0 (k + 1)) := by
    apply le_listMax
    rw [mem_idsFrom]
    push_cast
    omega
  push_cast at hmem
  omega

theorem next_id_of_canonical (s : TodoDao) (k : Nat)
    (h : s.todos.map Prod.fst = idsFrom 0 k) : s._next_id = (k : Int) + 1 := by
  cases k with
  | zero =>
    have hnil : s.todos = [] := by
      cases he : s.todos with
      | nil => rfl
      | cons p rest => rw [he] at h; simp [idsFrom] at h
    simp [TodoDao._next_id, hnil]
  | succ k' =>
    have hne : s.todos ≠ [] := by
      intro he
      rw [he] at h
      simp [idsFrom] at h
    rw [next_id_of_ne_nil s hne, h, listMax_idsFrom]
    push_cast
    ring

theorem runSaves_spec (tcs : List TodoCreate) :
    ∀ (k : Nat) (s : TodoDao) (ids : List Int),
      s.todos.map Prod.fst = idsFrom 0 k →
      s.todos.map (fun p => p.2.id) = idsFrom 0 k →
      (TodoDao.runOps s ids (tcs.map Op.save)).2 = ids ++ idsFrom k tcs.length ∧
      ((TodoDao.runOps s ids (tcs.map Op.save)).1).todos.map Prod.fst
        = idsFrom 0 (k + tcs.length) ∧
      ((TodoDao.runOps s ids (tcs.map Op.save)).1).todos.map (fun p => p.2.id)
        = idsFrom 0 (k + tcs.length) := by
  induction tcs with
  | nil =>
    intro k s ids h1 h2
    simp [TodoDao.runOps, idsFrom, h1, h2]
  | cons tc tcs ih =>
    intro k s ids h1 h2
    have hnid : s._next_id = (k : Int) + 1 := next_id_of_canonical s k h1
    have hfresh : ∀ p ∈ s.todos, p.1 ≠ s._next_id := next_id_fresh s
    have hins : dictInsert s._next_id ⟨s._next_id, tc.text, tc.done⟩ s.todos
        = s.todos ++ [(s._next_id, ⟨s._next_id, tc.text, tc.done⟩)] :=
      dictInsert_of_fresh _ _ _ hfresh
    have hstep : TodoDao.runOps s ids ((tc :: tcs).map Op.save)
        = TodoDao.runOps (s.save tc).1 (ids ++ [((s.save tc).2).id]) (tcs.map Op.save) := by
      simp [TodoDao.runOps]
    have htodos : ((s.save tc).1).todos
        = s.todos ++ [(s._next_id, ⟨s._next_id, tc.text, tc.done⟩)] := hins
    have hid : ((s.save tc).2).id = (k : Int) + 1 := hnid
    have hkeys : ((s.save tc).1).todos.map Prod.fst = idsFrom 0 (k + 1) := by
      rw [htodos, List.map_append, h1, hnid]
      have := idsFrom_append k 0
      simpa using this
    have hvids : ((s.save tc).1).todos.map (fun p => p.2.id) = idsFrom 0 (k + 1) := by
      rw [htodos, List.map_append, h2, hnid]
      have := idsFrom_append k 0
      simpa using this
    obtain ⟨ha, hb, hc⟩ := ih (k + 1) ((s.save tc).1) (ids ++ [((s.save tc).2).id]) hkeys hvids
    refine ⟨?_, ?_, ?_⟩
    · rw [hstep, ha, hid]
      simp only [List.length_cons, idsFrom, List.append_assoc, List.singleton_append]
    · rw [hstep, hb]
      congr 1
      simp only [List.length_cons]
      omega
    · rw [hstep, hc]
      congr 1
      simp only [List.length_cons]
      omega

/-! ### Reading the backing file -/

theorem model_validate_model_dump (t : Todo)
    (h : validate_text (.str t.text) = some t.text) :
    Todo.model_validate (Todo.model_dump t) = some t := by
  simp [Todo.model_validate, Todo.model_dump, h]

theorem readLoop_roundtrip : ∀ (m acc : List (Int × Todo)),
    (∀ p ∈ m, p.2.id = p.1 ∧ validate_text (.str p.2.text) = some p.2.text) →
    (∀ p ∈ m, p.1 ∉ acc.map Prod.fst) →
    (m.map Prod.fst).Nodup →
    TodoDao.readLoop ((m.map Prod.snd).map Todo.model_dump) acc = .ok (acc ++ m) := by
  intro m
  induction m with
  | nil =>
    intro acc _ _ _
    simp [TodoDao.readLoop]
  | cons p rest ih =>
    intro acc hval hfresh hnd
    obtain ⟨hpid, hptext⟩ := hval p (by simp)
    have hmv : Todo.model_validate (Todo.model_dump p.2) = some p.2 :=
      model_validate_model_dump p.2 hptext
    simp only [List.map_cons]
    have h1 : (Todo.model_dump p.2).id = some p.2.id := rfl
    have hstep : TodoDao.readLoop (Todo.model_dump p.2 :: (rest.map Prod.snd).map Todo.model_dump) acc
        = TodoDao.readLoop ((rest.map Prod.snd).map Todo.model_dump) (dictInsert p.2.id p.2 acc) := by
      simp [TodoDao.readLoop, h1, hmv]
    rw [hstep]
    have hfresh1 : ∀ q ∈ acc, q.1 ≠ p.2.id := by
      intro q hq he
      apply hfresh p (by simp)
      rw [← hpid, ← he]
      exact List.mem_map_of_mem _ hq
    rw [dictInsert_of_fresh _ _ _ hfresh1, hpid]
    simp only [List.map_cons, List.nodup_cons] at hnd
    have hrest := ih (acc ++ [(p.1, p.2)])
      (fun q hq => hval q (by simp [hq]))
      (fun q hq => by
        simp only [List.map_append, List.mem_append, List.map_cons, List.map_nil,
          List.mem_singleton]
        rintro (h' | h')
        · exact hfresh q (by simp [hq]) h'
        · exact hnd.1 (h' ▸ List.mem_map_of_mem Prod.fst hq))
      hnd.2
    rw [hrest]
    simp

theorem readLoop_err : ∀ (rs : List RecordData) (acc : List (Int × Todo)) (r : RecordData),
    r ∈ rs → Todo.model_validate r = none →
    TodoDao.readLoop rs acc = .error .malformedStoreFile := by
  intro rs
  induction rs with
  | nil => intro acc r h _; cases h
  | cons r0 rest ih =>
    intro acc r hmem hbad
    cases hid : r0.id with
    | none => simp [TodoDao.readLoop, hid]
    | some k =>
      cases hmv : Todo.model_validate r0 with
      | none => simp [TodoDao.readLoop, hid, hmv]
      | some t =>
        have hr : r ∈ rest := by
          rcases List.mem_cons.mp hmem with rfl | h'
          · rw [hbad] at hmv; cases hmv
          · exact h'
        simp [TodoDao.readLoop, hid, hmv, ih _ r hr hbad]

theorem model_validate_isSome (r : RecordData) (h : (Todo.model_validate r).isSome) :
    ∃ k t, r.id = some k ∧ Todo.model_validate r = some t ∧ t.id = k := by
  cases hid : r.id with
  | none => simp [Todo.model_validate, hid] at h
  | some k =>
    cases htext : r.text with
    | none => simp [Todo.model_validate, hid, htext] at h
    | some v =>
      cases hv : validate_text v with
      | none => simp [Todo.model_validate, hid, htext, hv] at h
      | some t0 =>
        exact ⟨k, ⟨k, t0, r.done.getD false⟩, rfl,
          by simp [Todo.model_validate, hid, htext, hv], rfl⟩

theorem find?_append_some (l1 l2 : List RecordData) (p : RecordData → Bool) (r : RecordData)
    (h : l1.find? p = some r) : (l1 ++ l2).find? p = some r := by
  induction l1 with
  | nil => simp [List.find?] at h
  | cons a l ih =>
    cases hp : p a with
    | true =>
      rw [List.find?_cons_of_pos _ hp] at h
      rw [List.cons_append, List.find?_cons_of_pos _ hp]
      exact h
    | false =>
      rw [List.find?_cons_of_neg _ (by simp [hp])] at h
      rw [List.cons_append, List.find?_cons_of_neg _ (by simp [hp])]
      exact ih h

theorem find?_append_none (l1 l2 : List RecordData) (p : RecordData → Bool)
    (h : l1.find? p = none) : (l1 ++ l2).find? p = l2.find? p := by
  induction l1 with
  | nil => simp
  | cons a l ih =>
    cases hp : p a with
    | true =>
      rw [List.find?_cons_of_pos _ hp] at h
      cases h
    | false =>
      rw [List.find?_cons_of_neg _ (by simp [hp])] at h
      rw [List.cons_append, List.find?_cons_of_neg _ (by simp [hp])]
      exact ih h

theorem readLoop_get : ∀ (rs : List RecordData) (acc : List (Int × Todo)),
    (∀ r ∈ rs, (Todo.model_validate r).isSome) →
    ∃ m, TodoDao.readLoop rs acc = .ok m ∧
      ∀ i : Int, dictGet i m =
        ((rs.reverse.find? (fun r => r.id == some i)).bind Todo.model_validate).orElse
          (fun _ => dictGet i acc) := by
  intro rs
  induction rs with
  | nil =>
    intro acc _
    exact ⟨acc, rfl, fun i => by simp⟩
  | cons r0 rest ih =>
    intro acc hall
    obtain ⟨k, t, hid, hmv, htid⟩ := model_validate_isSome r0 (hall r0 (by simp))
    have hstep : TodoDao.readLoop (r0 :: rest) acc
        = TodoDao.readLoop rest (dictInsert k t acc) := by
      simp [TodoDao.readLoop, hid, hmv]
    obtain ⟨m, hm, hget⟩ := ih (dictInsert k t acc) (fun r hr => hall r (by simp [hr]))
    refine ⟨m, by rw [hstep]; exact hm, ?_⟩
    intro i
    rw [hget i]
    have hrev : (r0 :: rest).reverse = rest.reverse ++ [r0] := by simp
    rw [hrev]
    cases hfind : rest.reverse.find? (fun r => r.id == some i) with
    | some r1 =>
      rw [find?_append_some _ _ _ _ hfind]
      have hr1 : r1 ∈ rest := by
        have := List.mem_of_find?_eq_some hfind
        simpa using this
      obtain ⟨t1, ht1⟩ := Option.isSome_iff_exists.mp (hall r1 (by simp [hr1]))
      simp [ht1]
    | none =>
      rw [find?_append_none _ _ _ hfind]
      by_cases hk : k = i
      · subst hk
        have hone : ([r0].find? fun r => r.id == some k) = some r0 := by
          simp [List.find?, hid]
        rw [hone]
        simp [hmv, dictGet_insert]
      · have hkb : (k == i) = false := by
          simp [hk]
        have hone : ([r0].find? fun r => r.id == some i) = none := by
          simp [List.find?, hid, hkb]
        rw [hone]
        simp [dictGet_insert, hk]

/-! ### The claims -/

/-- **C1** (counterexample): it is not true that along every sequence of
save and delete calls from the empty store the assigned ids strictly
increase (equivalently, that each save's id strictly exceeds the
historical maximum of all ids ever assigned).  Saving, deleting id 1, and
saving again assigns the ids 1, 1: the deleted id is reused. -/
theorem C1_counterexample :
    ¬ ∀ ops : List Op, (∀ op ∈ ops, op.isSaveOrDelete = true) →
      List.Pairwise (· < ·) ((TodoDao.runOps emptyDao [] ops).2) := by
  intro h
  have h2 := h [Op.save ⟨"ab", false⟩, Op.delete 1, Op.save ⟨"cd", false⟩] (by decide)
  have he : (TodoDao.runOps emptyDao []
      [Op.save ⟨"ab", false⟩, Op.delete 1, Op.save ⟨"cd", false⟩]).2 = [1, 1] := by
    decide
  rw [he] at h2
  simp [List.pairwise_cons] at h2

/-- **C1** (amended): after any sequence of operations from the empty
store, the id assigned by the next save strictly exceeds every id
currently in the mapping — so a save never collides with a live record —
but it exceeds only the current maximum, not the historical one, and a
deleted maximal id is reused. -/
theorem C1_amended (ops : List Op) (tc : TodoCreate) (k : Int)
    (h : k ∈ ((TodoDao.runOps emptyDao [] ops).1).todos.map Prod.fst) :
    k < ((((TodoDao.runOps emptyDao [] ops).1).save tc).2).id :=
  save_id_gt_keys _ tc k h

/-- Witness for the amended C1 at a concrete run. -/
theorem C1_amended_witness :
    (1 : Int) ∈ ((TodoDao.runOps emptyDao [] [Op.save ⟨"ab", false⟩]).1).todos.map Prod.fst ∧
    (1 : Int) < ((((TodoDao.runOps emptyDao [] [Op.save ⟨"ab", false⟩]).1).save ⟨"cd", false⟩).2).id :=
  ⟨by decide, C1_amended [Op.save ⟨"ab", false⟩] ⟨"cd", false⟩ 1 (by decide)⟩

/-- **C2**: starting from the empty store, a sequence of N saves assigns
exactly the ids 1, 2, ..., N in call order, and the ids returned by
`get_all` afterwards are exactly 1..N — in particular their set is
`{i | 1 ≤ i ≤ N}`. -/
theorem C2_sequential_ids (tcs : List TodoCreate) :
    (TodoDao.runOps emptyDao [] (tcs.map Op.save)).2 = idsFrom 0 tcs.length ∧
    ((TodoDao.runOps emptyDao [] (tcs.map Op.save)).1).get_all.map Todo.id
      = idsFrom 0 tcs.length ∧
    ∀ i : Int,
      (i ∈ ((TodoDao.runOps emptyDao [] (tcs.map Op.save)).1).get_all.map Todo.id ↔
        1 ≤ i ∧ i ≤ (tcs.length : Int)) := by
  obtain ⟨ha, hb, hc⟩ := runSaves_spec tcs 0 emptyDao [] rfl rfl
  have hmm : ((TodoDao.runOps emptyDao [] (tcs.map Op.save)).1).get_all.map Todo.id
      = ((TodoDao.runOps emptyDao [] (tcs.map Op.save)).1).todos.map (fun p => p.2.id) := by
    simp [TodoDao.get_all, List.map_map, Function.comp]
  refine ⟨by simpa using ha, ?_, ?_⟩
  · rw [hmm, hc]
    simp
  · intro i
    rw [hmm, hc, mem_idsFrom]
    push_cast
    omega

/-- **C3**: after every successful mutating operation, the backing file is
exactly the JSON-array serialization of the in-memory mapping. -/
theorem C3_file_matches_memory (s : TodoDao) (op : Op) (s' : TodoDao)
    (h : s.applyOp op = .ok s') :
    s'.file = .array (s'.get_all.map Todo.model_dump) := by
  cases op with
  | save tc =>
    simp only [TodoDao.applyOp, Except.ok.injEq] at h
    subst h
    rfl
  | update t =>
    by_cases hc : (dictGet t.id s.todos).isSome
    · simp only [TodoDao.applyOp, TodoDao.update, if_pos hc, Except.map, Except.ok.injEq] at h
      subst h
      rfl
    · simp [TodoDao.applyOp, TodoDao.update, hc, Except.map] at h
  | delete i =>
    by_cases hc : (dictGet i s.todos).isSome
    · simp only [TodoDao.applyOp, TodoDao.delete, if_pos hc, Except.ok.injEq] at h
      subst h
      rfl
    · simp [TodoDao.applyOp, TodoDao.delete, hc] at h

/-- Witness for C3: a successful save from the empty store. -/
theorem C3_file_matches_memory_witness :
    TodoDao.applyOp emptyDao (Op.save ⟨"ab", false⟩) = .ok ((emptyDao.save ⟨"ab", false⟩).1) ∧
    ((emptyDao.save ⟨"ab", false⟩).1).file
      = .array (((emptyDao.save ⟨"ab", false⟩).1).get_all.map Todo.model_dump) :=
  ⟨rfl, C3_file_matches_memory emptyDao (Op.save ⟨"ab", false⟩) _ rfl⟩

/-- **C4**: `update` on an id absent from the mapping fails with the
`NotFound` condition and leaves the store (mapping and file) unchanged. -/
theorem C4_update_not_found (s : TodoDao) (t : Todo)
    (h : dictGet t.id s.todos = none) :
    s.update t = .error .notFound ∧ s.stepOp (.update t) = s := by
  have hc : ¬ (dictGet t.id s.todos).isSome := by simp [h]
  constructor
  · simp [TodoDao.update, hc]
  · simp [TodoDao.stepOp, TodoDao.applyOp, TodoDao.update, hc, Except.map]

/-- Witness for C4: updating id 999 in the empty store. -/
theorem C4_update_not_found_witness :
    dictGet (999 : Int) emptyDao.todos = none ∧
    emptyDao.update ⟨999, "XX", false⟩ = .error .notFound ∧
    emptyDao.stepOp (.update ⟨999, "XX", false⟩) = emptyDao :=
  ⟨rfl, (C4_update_not_found emptyDao ⟨999, "XX", false⟩ rfl).1,
    (C4_update_not_found emptyDao ⟨999, "XX", false⟩ rfl).2⟩

/-- **C5**: `delete` on an absent id fails with `NotFound` and leaves the
store unchanged; on a present id it removes exactly that record (the key
becomes absent, every other key is untouched, the size drops by one). -/
theorem C5_delete_semantics (s : TodoDao) (i : Int) :
    (dictGet i s.todos = none →
      s.delete i = .error .notFound ∧ s.stepOp (.delete i) = s) ∧
    (∀ t, dictGet i s.todos = some t → (s.todos.map Prod.fst).Nodup →
      ∃ s', s.delete i = .ok s' ∧
        dictGet i s'.todos = none ∧
        (∀ j, j ≠ i → dictGet j s'.todos = dictGet j s.todos) ∧
        s'.todos.length + 1 = s.todos.length) := by
  constructor
  · intro h
    have hc : ¬ (dictGet i s.todos).isSome := by simp [h]
    exact ⟨by simp [TodoDao.delete, hc],
      by simp [TodoDao.stepOp, TodoDao.applyOp, TodoDao.delete, hc]⟩
  · intro t h hnd
    have hc : (dictGet i s.todos).isSome := by simp [h]
    refine ⟨TodoDao._write_all { s with todos := dictRemove i s.todos }
        ((dictRemove i s.todos).map Prod.snd), ?_, ?_, ?_, ?_⟩
    · simp [TodoDao.delete, hc]
    · exact dictGet_remove_self i s.todos hnd
    · intro j hj
      exact dictGet_remove_ne i j s.todos hj
    · exact dictRemove_length i t s.todos h

/-- Witness for C5: both branches on a one-record store. -/
theorem C5_delete_semantics_witness :
    (sampleDao.delete 2 = .error .notFound ∧ sampleDao.stepOp (.delete 2) = sampleDao) ∧
    ∃ s', sampleDao.delete 1 = .ok s' ∧
      dictGet 1 s'.todos = none ∧
      (∀ j, j ≠ (1 : Int) → dictGet j s'.todos = dictGet j sampleDao.todos) ∧
      s'.todos.length + 1 = sampleDao.todos.length :=
  ⟨(C5_delete_semantics sampleDao 2).1 (by decide),
    (C5_delete_semantics sampleDao 1).2 ⟨1, "ab", false⟩ (by decide) (by decide)⟩

/-- **C6**: creating a todo fails with `InvalidInput` exactly when the
`text` value is not a string or its stripped form is shorter than 2
characters; on success the stored record's text is the stripped string.
In particular text `"a"` is rejected while `"ab"` and `"  ab  "` are
accepted, the latter stored as `"ab"`. -/
theorem C6_save_validation (s : TodoDao) (raw : FieldVal) (d : Bool) :
    (s.create_todo raw d = .error .invalidInput ↔
      raw = .notStr ∨ ∃ u, raw = .str u ∧ (strip u).length < MIN_TEXT_LENGTH) ∧
    (∀ u s' todo, raw = .str u → s.create_todo raw d = .ok (s', todo) →
      todo.text = strip u ∧ dictGet todo.id s'.todos = some todo) ∧
    s.create_todo (.str "a") d = .error .invalidInput ∧
    (∃ s' todo, s.create_todo (.str "ab") d = .ok (s', todo) ∧ todo.text = "ab") ∧
    (∃ s' todo, s.create_todo (.str "  ab  ") d = .ok (s', todo) ∧ todo.text = "ab") := by
  refine ⟨?_, ?_, ?_, ?_, ?_⟩
  · cases raw with
    | notStr => simp [TodoDao.create_todo, TodoCreate.model_validate, validate_text]
    | str u =>
      by_cases hlen : (strip u).length < MIN_TEXT_LENGTH
      · simp only [TodoDao.create_todo, TodoCreate.model_validate, validate_text,
          if_pos hlen, Option.map_none']
        constructor
        · intro _
          exact Or.inr ⟨u, rfl, hlen⟩
        · intro _
          trivial
      · simp only [TodoDao.create_todo, TodoCreate.model_validate, validate_text,
          if_neg hlen, Option.map_some']
        constructor
        · intro he
          cases he
        · rintro (he | ⟨u', hu', hlen'⟩)
          · cases he
          · cases hu'
            exact absurd hlen' hlen
  · intro u s' todo hraw heq
    subst hraw
    by_cases hlen : (strip u).length < MIN_TEXT_LENGTH
    · simp [TodoDao.create_todo, TodoCreate.model_validate, validate_text, hlen] at heq
    · simp only [TodoDao.create_todo, TodoCreate.model_validate, validate_text,
        if_neg hlen, Option.map_some', Except.ok.injEq] at heq
      have hs' : (s.save ⟨strip u, d⟩).1 = s' := congrArg Prod.fst heq
      have ht : (s.save ⟨strip u, d⟩).2 = todo := congrArg Prod.snd heq
      subst hs'
      subst ht
      refine ⟨rfl, ?_⟩
      have hid : ((s.save ⟨strip u, d⟩).2).id = s._next_id := rfl
      have htodos : ((s.save ⟨strip u, d⟩).1).todos
          = dictInsert s._next_id (s.save ⟨strip u, d⟩).2 s.todos := rfl
      rw [hid, htodos, dictGet_insert]
      simp
  · have hv : validate_text (.str "a") = none := by decide
    simp [TodoDao.create_todo, TodoCreate.model_validate, hv]
  · have hv : validate_text (.str "ab") = some "ab" := by decide
    exact ⟨(s.save ⟨"ab", d⟩).1, (s.save ⟨"ab", d⟩).2,
      by simp [TodoDao.create_todo, TodoCreate.model_validate, hv], rfl⟩
  · have hv : validate_text (.str "  ab  ") = some "ab" := by decide
    exact ⟨(s.save ⟨"ab", d⟩).1, (s.save ⟨"ab", d⟩).2,
      by simp [TodoDao.create_todo, TodoCreate.model_validate, hv], rfl⟩

/-- Witness for C6: creating from text with surrounding whitespace. -/
theorem C6_save_validation_witness :
    ((emptyDao.save ⟨"ab", false⟩).2).text = strip " ab " ∧
    dictGet ((emptyDao.save ⟨"ab", false⟩).2).id ((emptyDao.save ⟨"ab", false⟩).1).todos
      = some ((emptyDao.save ⟨"ab", false⟩).2) :=
  (C6_save_validation emptyDao (.str " ab ") false).2.1 " ab "
    ((emptyDao.save ⟨"ab", false⟩).1) ((emptyDao.save ⟨"ab", false⟩).2) rfl rfl

/-- **C7**: writing the records of a well-formed store to the backing file
and then building a new store from that file reproduces the mapping
exactly (same ids, texts and done flags). -/
theorem C7_roundtrip (s : TodoDao)
    (hnd : (s.todos.map Prod.fst).Nodup)
    (hval : ∀ p ∈ s.todos, p.2.id = p.1 ∧ validate_text (.str p.2.text) = some p.2.text) :
    TodoDao.init ((s._write_all s.get_all).file)
      = .ok ({ todos := s.todos, file := (s._write_all s.get_all).file }, false) := by
  have hrl := readLoop_roundtrip s.todos [] hval (by simp) hnd
  simp only [List.nil_append] at hrl
  have hrl' : TodoDao.readLoop (s.todos.map (Todo.model_dump ∘ Prod.snd)) [] = .ok s.todos := by
    rw [← List.map_map]
    exact hrl
  simp [TodoDao.init, TodoDao._read_all, TodoDao._write_all, TodoDao.get_all,
    List.map_map, hrl', Except.map]

/-- Witness for C7 on a one-record store. -/
theorem C7_roundtrip_witness :
    TodoDao.init ((sampleDao._write_all sampleDao.get_all).file)
      = .ok ({ todos := sampleDao.todos,
               file := (sampleDao._write_all sampleDao.get_all).file }, false) :=
  C7_roundtrip sampleDao (by decide) (by decide)

/-- **C8**: building the store from an absent file succeeds with an empty
mapping and a logged warning; from a file that is not valid JSON, or whose
array holds a record with a missing field, a non-string text, or a text
shorter than 2 characters after stripping, it fails with
`MalformedStoreFile`. -/
theorem C8_startup :
    TodoDao.init .missing = .ok (emptyDao, true) ∧
    TodoDao.init .invalid = .error .malformedStoreFile ∧
    ∀ (rs : List RecordData) (r : RecordData), r ∈ rs →
      (r.id = none ∨ r.text = none ∨ r.text = some .notStr ∨
        (∃ u, r.text = some (.str u) ∧ (strip u).length < MIN_TEXT_LENGTH)) →
      TodoDao.init (.array rs) = .error .malformedStoreFile := by
  refine ⟨rfl, rfl, ?_⟩
  intro rs r hmem hbad
  have hnone : Todo.model_validate r = none := by
    rcases hbad with h | h | h | ⟨u, hu, hlen⟩
    · cases ht : r.text <;> simp [Todo.model_validate, h, ht]
    · cases hid : r.id <;> simp [Todo.model_validate, h, hid]
    · cases hid : r.id <;> simp [Todo.model_validate, h, hid, validate_text]
    · cases hid : r.id <;> simp [Todo.model_validate, hu, hid, validate_text, hlen]
  have herr := readLoop_err rs [] r hmem hnone
  simp [TodoDao.init, TodoDao._read_all, herr, Except.map]

/-- Witness for C8: a record with no id field. -/
theorem C8_startup_witness :
    (⟨none, some (.str "ab"), none⟩ : RecordData) ∈
      [(⟨none, some (.str "ab"), none⟩ : RecordData)] ∧
    TodoDao.init (.array [⟨none, some (.str "ab"), none⟩]) = .error .malformedStoreFile :=
  ⟨by simp, C8_startup.2.2 [⟨none, some (.str "ab"), none⟩]
    ⟨none, some (.str "ab"), none⟩ (by simp) (Or.inl rfl)⟩

/-- **C9**: on a non-empty store the id assigned by save strictly exceeds
every id currently in the mapping, the new id is absent from the current
mapping (no record is overwritten), and `get_all` grows by exactly one
record. -/
theorem C9_save_fresh (s : TodoDao) (tc : TodoCreate) (hne : s.todos ≠ []) :
    (∀ k ∈ s.todos.map Prod.fst, k < ((s.save tc).2).id) ∧
    dictGet ((s.save tc).2).id s.todos = none ∧
    ((s.save tc).1).get_all.length = s.get_all.length + 1 := by
  refine ⟨fun k hk => save_id_gt_keys s tc k hk, ?_, ?_⟩
  · have hid : ((s.save tc).2).id = s._next_id := rfl
    rw [hid]
    exact dictGet_eq_none_of_fresh _ _ (next_id_fresh s)
  · have htodos : ((s.save tc).1).todos
        = s.todos ++ [(s._next_id, ⟨s._next_id, tc.text, tc.done⟩)] :=
      dictInsert_of_fresh _ _ _ (next_id_fresh s)
    simp [TodoDao.get_all, htodos]

/-- Witness for C9 on a one-record store. -/
theorem C9_save_fresh_witness :
    (∀ k ∈ sampleDao.todos.map Prod.fst, k < ((sampleDao.save ⟨"cd", false⟩).2).id) ∧
    dictGet ((sampleDao.save ⟨"cd", false⟩).2).id sampleDao.todos = none ∧
    ((sampleDao.save ⟨"cd", false⟩).1).get_all.length = sampleDao.get_all.length + 1 :=
  C9_save_fresh sampleDao ⟨"cd", false⟩ (by decide)

/-- **C10**: initialization performs no id-uniqueness check: on a file of
otherwise-valid records it succeeds, and each id maps to the decoding of
the last record in the array carrying that id (earlier duplicates are
silently discarded). -/
theorem C10_duplicate_ids_last_wins (rs : List RecordData)
    (hall : ∀ r ∈ rs, (Todo.model_validate r).isSome) :
    ∃ m, TodoDao.init (.array rs) = .ok ({ todos := m, file := .array rs }, false) ∧
      ∀ i : Int, dictGet i m
        = (rs.reverse.find? (fun r => r.id == some i)).bind Todo.model_validate := by
  obtain ⟨m, hm, hget⟩ := readLoop_get rs [] hall
  refine ⟨m, ?_, ?_⟩
  · simp [TodoDao.init, TodoDao._read_all, hm, Except.map]
  · intro i
    rw [hget i]
    cases hfind : rs.reverse.find? (fun r => r.id == some i) with
    | none => simp [dictGet]
    | some r1 =>
      have hr1 : r1 ∈ rs := by
        have := List.mem_of_find?_eq_some hfind
        simpa using this
      obtain ⟨t1, ht1⟩ := Option.isSome_iff_exists.mp (hall r1 hr1)
      simp [ht1]

/-- Witness for C10: two valid records sharing id 1. -/
theorem C10_duplicate_ids_last_wins_witness :
    (∀ r ∈ dupRecords, (Todo.model_validate r).isSome) ∧
    ∃ m, TodoDao.init (.array dupRecords)
        = .ok ({ todos := m, file := .array dupRecords }, false) ∧
      ∀ i : Int, dictGet i m
        = (dupRecords.reverse.find? (fun r => r.id == some i)).bind Todo.model_validate :=
  ⟨by decide, C10_duplicate_ids_last_wins dupRecords (by decide)⟩

end TodoApp
